import Mathlib

/- Verification of the py_iec_61162 encoding pipeline.

   Shallow embedding of iec_61162/part_1/sentences.py and
   iec_61162/part_450/messages.py.  Bit streams (bitstring.BitStream) are
   modelled as List Bool, most significant bit first; Python strings as
   Lean String; the two stateful generator classes as explicit
   state-passing functions.  Python code that can raise an exception is
   modelled with Option.  Machine integers do not occur: every numeric
   quantity in the source is a non-negative Python int, modelled as Nat. -/

/-- XOR fold at the heart of iec_checksum:
checksum = 0x00; for c in d: checksum ^= ord(c). -/
def checksumCore (l : List Char) : Nat :=
  l.foldl (fun acc c => acc ^^^ c.toNat) 0

/-- Character-list form of iec_checksum (sentences.py, lines 28-55):
Python evaluates data[0] first, which raises IndexError on the empty
string; that failure is modelled by returning none.  A single leading
sentinel is stripped before the XOR fold. -/
def iec_checksum_list : List Char → Option Nat
  | [] => none
  | c :: rest =>
    if c = '$' ∨ c = '!' then some (checksumCore rest)
    else some (checksumCore (c :: rest))

/-- Model of iec_checksum (sentences.py, lines 28-55). -/
def iec_checksum (data : String) : Option Nat :=
  iec_checksum_list data.data

/-- One uppercase hexadecimal digit, as produced by Python format code X. -/
def hexDigit (n : Nat) : Char :=
  Char.ofNat (if n < 10 then 48 + n else 55 + n)

/-- Fuelled big-endian uppercase hexadecimal expansion; fuel n + 1 always
suffices for value n. -/
def hexDigitsAux : Nat → Nat → List Char
  | 0, _ => []
  | fuel + 1, n =>
    if n < 16 then [hexDigit n]
    else hexDigitsAux fuel (n / 16) ++ [hexDigit (n % 16)]

/-- Minimal uppercase hexadecimal expansion of n (at least one digit). -/
def hexDigits (n : Nat) : List Char :=
  hexDigitsAux (n + 1) n

/-- Model of the Python format spec in the string property of both
sentence classes: zero-pad the uppercase hexadecimal form to width
at least 2. -/
def fmtHex2 (n : Nat) : String :=
  String.mk (List.replicate (2 - (hexDigits n).length) '0' ++ hexDigits n)

/-- Value of a bit list read as a big-endian unsigned integer;
models bitstring's uint interpretation. -/
def bitsToNat (bits : List Bool) : Nat :=
  bits.foldl (fun n b => 2 * n + (if b then 1 else 0)) 0

/-- The 6-bit to 8-bit character map of sentences.py, line 82:
chr(v + 48) if v < 40 else chr(v + 56). -/
def sixBitChar (v : Nat) : Char :=
  Char.ofNat (if v < 40 then v + 48 else v + 56)

/-- Reads count consecutive 6-bit big-endian unsigned values from the head
of a bit list; models bs.readlist(n_char * (uint 6)). -/
def readUint6 : Nat → List Bool → List Nat
  | 0, _ => []
  | n + 1, bits => bitsToNat (bits.take 6) :: readUint6 n (bits.drop 6)

/-- Model of iec_ascii_6b_to_8b (sentences.py, lines 57-84): read
len(bs) / 6 six-bit values and map each through the character table. -/
def iec_ascii_6b_to_8b (bs : List Bool) : String :=
  String.mk ((readUint6 (bs.length / 6) bs).map sixBitChar)

/-- n_fill_bits = int((6 - (n_bits % 6)) % 6), as computed at
sentences.py lines 264 and 339. -/
def n_fill_bits (n : Nat) : Nat := (6 - n % 6) % 6

/-- Python slice s[start : start + len]. -/
def pySlice (s : String) (start len : Nat) : String :=
  String.mk ((s.data.drop start).take len)

/-- Exact ceiling division; models math.ceil(a / b) at sentences.py
lines 281 and 358 (the float division there is exact for all
realistic sentence counts). -/
def ceilDiv (a b : Nat) : Nat := (a + b - 1) / b

/-- BBM Sentence (sentences.py, lines 89-138): AIS binary broadcast
message.  Field names and order follow the Python constructor. -/
structure BBMSentence where
  n_sentences : Nat
  i_sentence : Nat
  sequential_id : Nat
  channel : Nat
  msg_id : Nat
  payload : String
  n_fill_bits : Nat
  talker_id : String
deriving DecidableEq

/-- Class attribute formatter_code = "BBM". -/
def BBMSentence.formatter_code : String := "BBM"

/-- The comma-joined part of the BBM format string of sentences.py
lines 149-158, everything after the leading sentinel. -/
def bbmFields (x : BBMSentence) : String :=
  x.talker_id ++ BBMSentence.formatter_code ++ "," ++ toString x.n_sentences
    ++ "," ++ toString x.i_sentence ++ "," ++ toString x.sequential_id
    ++ "," ++ toString x.channel ++ "," ++ toString x.msg_id
    ++ "," ++ x.payload ++ "," ++ toString x.n_fill_bits

/-- The string s built at sentences.py lines 149-158, before the
checksum is appended. -/
def bbmBody (x : BBMSentence) : String := "!" ++ bbmFields x

/-- Model of the string property (sentences.py, lines 140-163).  The
checksum call never returns none here because the body starts with
the sentinel, so the getD default is unreachable. -/
def BBMSentence.string (x : BBMSentence) : String :=
  bbmBody x ++ "*" ++ fmtHex2 ((iec_checksum (bbmBody x)).getD 0) ++ "\r\n"

/-- VDM Sentence (sentences.py, lines 166-208): AIS VHF data-link
message.  The channel field is a string in the source. -/
structure VDMSentence where
  n_sentences : Nat
  i_sentence : Nat
  sequential_id : Nat
  channel : String
  payload : String
  n_fill_bits : Nat
  talker_id : String
deriving DecidableEq

/-- Loop of asm_payload_bs_to_bbm_sentences (sentences.py, lines 361-377):
one iteration per sentence, each taking a 57-character slice of the
armored payload.  fuel counts the remaining iterations, so the loop is
entered with fuel = n_sentences, i_sentence = 1, payload_offset = 0. -/
def bbmLoop (n_sentences sequential_id channel msg_id n_fill : Nat)
    (talker_id payload : String) : Nat → Nat → Nat → List BBMSentence
  | 0, _, _ => []
  | fuel + 1, i_sentence, payload_offset =>
    BBMSentence.mk n_sentences i_sentence sequential_id channel msg_id
        (pySlice payload payload_offset 57) n_fill talker_id
      :: bbmLoop n_sentences sequential_id channel msg_id n_fill talker_id
          payload fuel (i_sentence + 1) (payload_offset + 57)

/-- Model of asm_payload_bs_to_bbm_sentences (sentences.py,
lines 305-379): pad with fill bits, armor, split into sentences of at
most 57 payload characters. -/
def asm_payload_bs_to_bbm_sentences (bs : List Bool)
    (sequential_id channel msg_id : Nat) (talker_id : String) :
    List BBMSentence :=
  let nfb := n_fill_bits bs.length
  let payload := iec_ascii_6b_to_8b (bs ++ List.replicate nfb false)
  let n_sentences := ceilDiv payload.length 57
  bbmLoop n_sentences sequential_id channel msg_id nfb talker_id payload
    n_sentences 1 0

/-- Loop of ais_msg_bs_to_vdm_sentences (sentences.py, lines 284-301):
one iteration per sentence, each taking a 60-character slice. -/
def vdmLoop (n_sentences sequential_id : Nat) (channel : String)
    (n_fill : Nat) (talker_id payload : String) :
    Nat → Nat → Nat → List VDMSentence
  | 0, _, _ => []
  | fuel + 1, i_sentence, payload_offset =>
    VDMSentence.mk n_sentences i_sentence sequential_id channel
        (pySlice payload payload_offset 60) n_fill talker_id
      :: vdmLoop n_sentences sequential_id channel n_fill talker_id
          payload fuel (i_sentence + 1) (payload_offset + 60)

/-- Model of ais_msg_bs_to_vdm_sentences (sentences.py, lines 238-303). -/
def ais_msg_bs_to_vdm_sentences (msg_bs : List Bool) (sequential_id : Nat)
    (channel talker_id : String) : List VDMSentence :=
  let nfb := n_fill_bits msg_bs.length
  let payload := iec_ascii_6b_to_8b (msg_bs ++ List.replicate nfb false)
  let n_sentences := ceilDiv payload.length 60
  vdmLoop n_sentences sequential_id channel nfb talker_id payload
    n_sentences 1 0

/-- State of the SentenceGenerator class (sentences.py, lines 382-398);
the constructor sets both sequential ids to 0. -/
structure SentenceGenerator where
  talker_id : String
  vdm_sequential_id : Nat
  bbm_sequential_id : Nat
deriving DecidableEq

/-- Model of SentenceGenerator.generate_bbm (sentences.py,
lines 400-441): build the sentences with the current sequential id, then
advance the counter mod 10 only when more than one sentence was built;
the result is wrapped in a singleton list of groups. -/
def SentenceGenerator.generate_bbm (g : SentenceGenerator)
    (asm_payload_bs : List Bool) (channel msg_id : Nat) :
    List (List BBMSentence) × SentenceGenerator :=
  let bbm_sentences := asm_payload_bs_to_bbm_sentences asm_payload_bs
    g.bbm_sequential_id channel msg_id g.talker_id
  if bbm_sentences.length > 1 then
    ([bbm_sentences],
      ⟨g.talker_id, g.vdm_sequential_id, (g.bbm_sequential_id + 1) % 10⟩)
  else
    ([bbm_sentences], g)

/-- IEC 61162-450 encapsulated sentence message (messages.py,
lines 26-58), generic in the embedded sentence type just as the Python
class is duck-typed over it. -/
structure IEC61162450Message (α : Type) where
  i_sentence : Nat
  n_sentences : Nat
  group_id : Nat
  source_id : String
  sentence : α
deriving DecidableEq

/-- State of the MessageGenerator class (messages.py, lines 109-122);
the constructor sets group_id to 0. -/
structure MessageGenerator where
  source_id : String
  group_id : Nat
deriving DecidableEq

/-- The counter update of messages.py lines 153-155:
self.group_id += 1; if self.group_id > 99: self.group_id = 1. -/
def nextGroupId (gid : Nat) : Nat :=
  if gid + 1 > 99 then 1 else gid + 1

/-- Inner loop of generate_msg (messages.py, lines 160-170): one Message
per sentence of the group, i_sentence counting from its initial value. -/
def emitGroup {α : Type} (gid : Nat) (sid : String) (n_sentences : Nat) :
    Nat → List α → List (IEC61162450Message α)
  | _, [] => []
  | i_sentence, s :: rest =>
    ⟨i_sentence, n_sentences, gid, sid, s⟩
      :: emitGroup gid sid n_sentences (i_sentence + 1) rest

/-- Outer loop of generate_msg (messages.py, lines 152-170): advance the
group id once per group, then emit that group's messages; returns the
accumulated messages and the final counter value. -/
def genLoop {α : Type} (sid : String) :
    Nat → List (List α) → List (IEC61162450Message α) × Nat
  | gid, [] => ([], gid)
  | gid, g :: gs =>
    let gid2 := nextGroupId gid
    let r := genLoop sid gid2 gs
    (emitGroup gid2 sid g.length 1 g ++ r.1, r.2)

/-- Model of MessageGenerator.generate_msg (messages.py, lines 124-172). -/
def MessageGenerator.generate_msg {α : Type} (mg : MessageGenerator)
    (sentences : List (List α)) :
    List (IEC61162450Message α) × MessageGenerator :=
  let r := genLoop mg.source_id mg.group_id sentences
  (r.1, ⟨mg.source_id, r.2⟩)

/-- A sequence of generate_msg calls against one generator instance,
collecting each call's returned message list. -/
def runCalls {α : Type} (mg : MessageGenerator) :
    List (List (List α)) →
    List (List (IEC61162450Message α)) × MessageGenerator
  | [] => ([], mg)
  | inp :: rest =>
    let r := mg.generate_msg inp
    let r2 := runCalls r.2 rest
    (r.1 :: r2.1, r2.2)

/-- The per-group message blocks of one generate_msg call, before the
source flattens them into a single list: block k holds the messages of
group k, all carrying that group's advanced id. -/
def genBlocks {α : Type} (sid : String) :
    Nat → List (List α) → List (List (IEC61162450Message α))
  | _, [] => []
  | gid, g :: gs =>
    emitGroup (nextGroupId gid) sid g.length 1 g
      :: genBlocks sid (nextGroupId gid) gs

/-- The list of payload slices taken by the sentence-building loops:
fuel slices of width maxc, starting at offset off. -/
def sliceList (maxc : Nat) (p : String) : Nat → Nat → List String
  | 0, _ => []
  | fuel + 1, off => pySlice p off maxc :: sliceList maxc p fuel (off + maxc)

/-- Modelled from bitstring's hex initialiser, used for the sample data
BitStream("0x123456789ABCDEF" * 15) at sentences.py line 475: the
library removes every 0x occurrence and turns each remaining hex digit
into 4 bits, most significant bit first.  Only digits and uppercase
letters occur in the sample. -/
def hexVal (c : Char) : Nat :=
  if c.toNat < 65 then c.toNat - 48 else c.toNat - 55

/-- The 4 bits of one hex digit, most significant bit first. -/
def nibbleBits (v : Nat) : List Bool :=
  [v.testBit 3, v.testBit 2, v.testBit 1, v.testBit 0]

/-- Bits denoted by a string of hex digits. -/
def hexToBits (s : String) : List Bool :=
  s.data.flatMap (fun c => nibbleBits (hexVal c))

/-- The sample payload hex digits: "123456789ABCDEF" repeated 15 times
(the Python source repeats "0x123456789ABCDEF"; bitstring drops each
0x). -/
def sample_payload_hex : String :=
  String.join (List.replicate 15 "123456789ABCDEF")

/-- The sample ASM payload bitstream of sentences.py line 475. -/
def sample_asm_payload_bs : List Bool := hexToBits sample_payload_hex

theorem checksum_foldl_eq (l : List Char) :
    ∀ a : Nat, l.foldl (fun acc c => acc ^^^ c.toNat) a = a ^^^ checksumCore l := by
  induction l with
  | nil => intro a; simp [checksumCore]
  | cons c l ih =>
    intro a
    simp only [List.foldl_cons, checksumCore] at *
    rw [ih (a ^^^ c.toNat), ih (0 ^^^ c.toNat), Nat.zero_xor, Nat.xor_assoc]

theorem checksumCore_append (l1 l2 : List Char) :
    checksumCore (l1 ++ l2) = checksumCore l1 ^^^ checksumCore l2 := by
  unfold checksumCore
  rw [List.foldl_append, checksum_foldl_eq]
  rfl

theorem iec_checksum_cons (c0 : Char) (rest : List Char) (s : String)
    (hd : s.data = c0 :: rest) :
    iec_checksum s
      = if c0 = '$' ∨ c0 = '!' then some (checksumCore rest)
        else some (checksumCore (c0 :: rest)) := by
  unfold iec_checksum
  rw [hd]
  rfl

/-- C6 (amended): on every non-empty input the checksum succeeds: it
strips a single leading sentinel and XORs the remaining character codes
into an accumulator initialized to 0; an input that is empty after
stripping (a lone sentinel) yields 0.  The fully empty input makes the
Python code raise IndexError, see the counterexample. -/
theorem iec_checksum_total_on_nonempty (s : String) (h : s.data ≠ []) :
    ∃ c, iec_checksum s = some c ∧
      c = (if s.data.head? = some '$' ∨ s.data.head? = some '!'
           then checksumCore s.data.tail else checksumCore s.data) ∧
      ((s = "$" ∨ s = "!") → c = 0) := by
  cases hd : s.data with
  | nil => exact absurd hd h
  | cons c0 rest =>
    refine ⟨if c0 = '$' ∨ c0 = '!' then checksumCore rest
              else checksumCore (c0 :: rest),
      by rw [iec_checksum_cons c0 rest s hd]; split <;> rfl, ?_, ?_⟩
    · simp only [hd, List.head?_cons, List.tail_cons, Option.some.injEq]
    · intro h2
      rcases h2 with h2 | h2 <;> subst h2
      · rw [show ("$" : String).data = ['$'] from rfl] at hd
        injection hd with h3 h4
        subst h3; subst h4
        simp [checksumCore]
      · rw [show ("!" : String).data = ['!'] from rfl] at hd
        injection hd with h3 h4
        subst h3; subst h4
        simp [checksumCore]

/-- C6 counterexample: the Python source evaluates data[0] before
anything else, so iec_checksum("") raises IndexError rather than
returning 0; in the embedding the empty string maps to none. -/
theorem iec_checksum_empty_fails : iec_checksum "" = none := rfl

/-- C6 witness. -/
theorem iec_checksum_total_on_nonempty_witness :
    ∃ c, iec_checksum "AB" = some c ∧
      c = (if ("AB" : String).data.head? = some '$'
              ∨ ("AB" : String).data.head? = some '!'
           then checksumCore ("AB" : String).data.tail
           else checksumCore ("AB" : String).data) ∧
      ((("AB" : String) = "$" ∨ ("AB" : String) = "!") → c = 0) :=
  iec_checksum_total_on_nonempty "AB" (by decide)

/-- C9: for non-empty strings a and b, neither of which begins with a
sentinel, the checksum of the concatenation is the XOR of the two
checksums. -/
theorem checksum_xor_append (a b : String)
    (ha : a.data ≠ []) (hb : b.data ≠ [])
    (ha2 : ¬(a.data.head? = some '$' ∨ a.data.head? = some '!'))
    (hb2 : ¬(b.data.head? = some '$' ∨ b.data.head? = some '!')) :
    ∃ ca cb, iec_checksum a = some ca ∧ iec_checksum b = some cb ∧
      iec_checksum (a ++ b) = some (ca ^^^ cb) := by
  cases hda : a.data with
  | nil => exact absurd hda ha
  | cons a0 as =>
    cases hdb : b.data with
    | nil => exact absurd hdb hb
    | cons b0 bs2 =>
      rw [hda] at ha2
      rw [hdb] at hb2
      simp only [List.head?_cons, Option.some.injEq] at ha2 hb2
      have hab : (a ++ b).data = a0 :: (as ++ b0 :: bs2) := by
        rw [String.data_append, hda, hdb]
        rfl
      refine ⟨checksumCore (a0 :: as), checksumCore (b0 :: bs2), ?_, ?_, ?_⟩
      · rw [iec_checksum_cons a0 as a hda, if_neg ha2]
      · rw [iec_checksum_cons b0 bs2 b hdb, if_neg hb2]
      · rw [iec_checksum_cons a0 (as ++ b0 :: bs2) (a ++ b) hab, if_neg ha2]
        rw [show a0 :: (as ++ b0 :: bs2) = (a0 :: as) ++ (b0 :: bs2) from rfl,
          checksumCore_append]

/-- C9 witness. -/
theorem checksum_xor_append_witness :
    ∃ ca cb, iec_checksum "AB" = some ca ∧ iec_checksum "CD" = some cb ∧
      iec_checksum ("AB" ++ "CD") = some (ca ^^^ cb) :=
  checksum_xor_append "AB" "CD" (by decide) (by decide) (by decide) (by decide)

theorem data_mk (l : List Char) : (String.mk l).data = l := rfl

theorem readUint6_length : ∀ (n : Nat) (bits : List Bool),
    (readUint6 n bits).length = n := by
  intro n
  induction n with
  | zero => intro bits; rfl
  | succ n ih => intro bits; simp [readUint6, ih]

theorem readUint6_get : ∀ (n : Nat) (bits : List Bool) (i : Nat), i < n →
    (readUint6 n bits)[i]? = some (bitsToNat ((bits.drop (6 * i)).take 6)) := by
  intro n
  induction n with
  | zero => intro bits i hi; exact absurd hi (by omega)
  | succ n ih =>
    intro bits i hi
    cases i with
    | zero => simp [readUint6]
    | succ i =>
      simp only [readUint6, List.getElem?_cons_succ]
      rw [ih (bits.drop 6) i (by omega), List.drop_drop,
        show 6 + 6 * i = 6 * (i + 1) by ring]

/-- C4: armoring appends fill_bit_count = (6 - (n mod 6)) mod 6 zero bits,
yielding a bit count divisible by 6; the armored string then has exactly
(n + fill_bit_count) / 6 characters, and its i-th character is the
6-bit group i of the padded bits, read most significant bit first and
mapped through v + 48 if v < 40 else v + 56. -/
theorem armoring_correct (bits : List Bool) (i : Nat)
    (hi : i < (bits.length + n_fill_bits bits.length) / 6) :
    (bits.length + n_fill_bits bits.length) % 6 = 0
    ∧ (iec_ascii_6b_to_8b
          (bits ++ List.replicate (n_fill_bits bits.length) false)).length
        = (bits.length + n_fill_bits bits.length) / 6
    ∧ (iec_ascii_6b_to_8b
          (bits ++ List.replicate (n_fill_bits bits.length) false)).data[i]?
        = some (sixBitChar (bitsToNat
            (((bits ++ List.replicate (n_fill_bits bits.length) false).drop
                (6 * i)).take 6))) := by
  have hlen : (bits ++ List.replicate (n_fill_bits bits.length) false).length
      = bits.length + n_fill_bits bits.length := by
    simp
  refine ⟨?_, ?_, ?_⟩
  · unfold n_fill_bits
    omega
  · unfold iec_ascii_6b_to_8b
    rw [String.length_mk, List.length_map, readUint6_length, hlen]
  · unfold iec_ascii_6b_to_8b
    rw [data_mk, List.getElem?_map,
      readUint6_get _ _ i (by rw [hlen]; exact hi)]
    rfl

/-- C4 witness. -/
theorem armoring_correct_witness :
    (([true] : List Bool).length + n_fill_bits ([true] : List Bool).length) % 6 = 0
    ∧ (iec_ascii_6b_to_8b
          ([true] ++ List.replicate (n_fill_bits ([true] : List Bool).length) false)).length
        = (([true] : List Bool).length + n_fill_bits ([true] : List Bool).length) / 6
    ∧ (iec_ascii_6b_to_8b
          ([true] ++ List.replicate (n_fill_bits ([true] : List Bool).length) false)).data[0]?
        = some (sixBitChar (bitsToNat
            ((([true] ++ List.replicate (n_fill_bits ([true] : List Bool).length) false).drop
                (6 * 0)).take 6))) :=
  armoring_correct [true] 0 (by decide)

theorem sliceList_length (maxc : Nat) (p : String) :
    ∀ (fuel off : Nat), (sliceList maxc p fuel off).length = fuel := by
  intro fuel
  induction fuel with
  | zero => intro off; rfl
  | succ n ih => intro off; simp [sliceList, ih]

theorem sliceList_get (maxc : Nat) (p : String) :
    ∀ (fuel off i : Nat), i < fuel →
      (sliceList maxc p fuel off)[i]? = some (pySlice p (off + i * maxc) maxc) := by
  intro fuel
  induction fuel with
  | zero => intro off i hi; exact absurd hi (by omega)
  | succ n ih =>
    intro off i hi
    cases i with
    | zero => simp [sliceList]
    | succ i =>
      simp only [sliceList, List.getElem?_cons_succ]
      rw [ih (off + maxc) i (by omega),
        show off + maxc + i * maxc = off + (i + 1) * maxc by ring]

theorem sliceList_flatten (maxc : Nat) (p : String) :
    ∀ (fuel off : Nat),
      ((sliceList maxc p fuel off).map String.data).flatten
        = (p.data.drop off).take (fuel * maxc) := by
  intro fuel
  induction fuel with
  | zero => intro off; simp [sliceList]
  | succ n ih =>
    intro off
    simp only [sliceList, List.map_cons, List.flatten_cons, ih (off + maxc)]
    rw [show (n + 1) * maxc = maxc + n * maxc by ring, List.take_add,
      pySlice, data_mk, ← List.drop_drop]

theorem pySlice_length (p : String) (off len : Nat) :
    (pySlice p off len).length = min len (p.length - off) := by
  show ((p.data.drop off).take len).length = min len (p.data.length - off)
  rw [List.length_take, List.length_drop]

theorem le_ceilDiv_mul (a b : Nat) (hb : 0 < b) : a ≤ ceilDiv a b * b := by
  unfold ceilDiv
  have hd := Nat.div_add_mod (a + b - 1) b
  have hm : (a + b - 1) % b < b := Nat.mod_lt _ hb
  have hc : ((a + b - 1) / b) * b = b * ((a + b - 1) / b) := Nat.mul_comm _ _
  rw [hc]
  omega

theorem mul_le_of_succ_lt_ceilDiv (a b k : Nat) (hb : 0 < b)
    (h : k + 1 < ceilDiv a b) : (k + 1) * b ≤ a := by
  unfold ceilDiv at h
  have h3 : (k + 2) * b ≤ a + b - 1 := (Nat.le_div_iff_mul_le hb).mp h
  have h4 : (k + 2) * b = (k + 1) * b + b := by ring
  omega

theorem bbmLoop_get (ns sid ch mid nf : Nat) (tk p : String) :
    ∀ (fuel i off j : Nat), j < fuel →
      (bbmLoop ns sid ch mid nf tk p fuel i off)[j]?
        = some (BBMSentence.mk ns (i + j) sid ch mid
            (pySlice p (off + j * 57) 57) nf tk) := by
  intro fuel
  induction fuel with
  | zero => intro i off j hj; exact absurd hj (by omega)
  | succ n ih =>
    intro i off j hj
    cases j with
    | zero => simp [bbmLoop]
    | succ j =>
      simp only [bbmLoop, List.getElem?_cons_succ]
      rw [ih (i + 1) (off + 57) j (by omega),
        show i + 1 + j = i + (j + 1) by ring,
        show off + 57 + j * 57 = off + (j + 1) * 57 by ring]

theorem bbmLoop_map_payload (ns sid ch mid nf : Nat) (tk p : String) :
    ∀ (fuel i off : Nat),
      (bbmLoop ns sid ch mid nf tk p fuel i off).map BBMSentence.payload
        = sliceList 57 p fuel off := by
  intro fuel
  induction fuel with
  | zero => intro i off; rfl
  | succ n ih => intro i off; simp [bbmLoop, sliceList, ih]

theorem bbmLoop_length (ns sid ch mid nf : Nat) (tk p : String)
    (fuel i off : Nat) :
    (bbmLoop ns sid ch mid nf tk p fuel i off).length = fuel := by
  have h := congrArg List.length (bbmLoop_map_payload ns sid ch mid nf tk p fuel i off)
  rw [List.length_map, sliceList_length] at h
  exact h

theorem vdmLoop_get (ns sid : Nat) (chv : String) (nf : Nat) (tk p : String) :
    ∀ (fuel i off j : Nat), j < fuel →
      (vdmLoop ns sid chv nf tk p fuel i off)[j]?
        = some (VDMSentence.mk ns (i + j) sid chv
            (pySlice p (off + j * 60) 60) nf tk) := by
  intro fuel
  induction fuel with
  | zero => intro i off j hj; exact absurd hj (by omega)
  | succ n ih =>
    intro i off j hj
    cases j with
    | zero => simp [vdmLoop]
    | succ j =>
      simp only [vdmLoop, List.getElem?_cons_succ]
      rw [ih (i + 1) (off + 60) j (by omega),
        show i + 1 + j = i + (j + 1) by ring,
        show off + 60 + j * 60 = off + (j + 1) * 60 by ring]

theorem vdmLoop_map_payload (ns sid : Nat) (chv : String) (nf : Nat)
    (tk p : String) :
    ∀ (fuel i off : Nat),
      (vdmLoop ns sid chv nf tk p fuel i off).map VDMSentence.payload
        = sliceList 60 p fuel off := by
  intro fuel
  induction fuel with
  | zero => intro i off; rfl
  | succ n ih => intro i off; simp [vdmLoop, sliceList, ih]

theorem vdmLoop_length (ns sid : Nat) (chv : String) (nf : Nat)
    (tk p : String) (fuel i off : Nat) :
    (vdmLoop ns sid chv nf tk p fuel i off).length = fuel := by
  have h := congrArg List.length (vdmLoop_map_payload ns sid chv nf tk p fuel i off)
  rw [List.length_map, sliceList_length] at h
  exact h

/-- C3: for every armored payload string, the BBM splitting loop (57
characters per fragment) and the VDM splitting loop (60 characters per
fragment), entered as in the source with count ceil(length / max_chars),
produce exactly that many fragments and their payloads concatenate back
to the armored payload; whenever position i (0-based) is below the
fragment count, that fragment is sentence number i + 1 and carries
exactly the substring payload[i * max : (i + 1) * max]; and whenever
position j is before the last fragment, its payload length is exactly
max_chars.  The fragment count and concatenation parts hold for every
payload, single-fragment and empty ones included. -/
theorem fragmentation_correct (payload : String) (sid ch mid nfb : Nat)
    (chv tk : String) (i j : Nat) :
    (bbmLoop (ceilDiv payload.length 57) sid ch mid nfb tk payload
        (ceilDiv payload.length 57) 1 0).length = ceilDiv payload.length 57
    ∧ (i < ceilDiv payload.length 57 →
        (bbmLoop (ceilDiv payload.length 57) sid ch mid nfb tk payload
          (ceilDiv payload.length 57) 1 0)[i]?
          = some (BBMSentence.mk (ceilDiv payload.length 57) (1 + i) sid ch mid
              (pySlice payload (i * 57) 57) nfb tk))
    ∧ (j + 1 < ceilDiv payload.length 57 →
        (bbmLoop (ceilDiv payload.length 57) sid ch mid nfb tk payload
          (ceilDiv payload.length 57) 1 0)[j]?.map (fun s => s.payload.length)
          = some 57)
    ∧ ((bbmLoop (ceilDiv payload.length 57) sid ch mid nfb tk payload
        (ceilDiv payload.length 57) 1 0).map
          (fun s => s.payload.data)).flatten = payload.data
    ∧ (vdmLoop (ceilDiv payload.length 60) sid chv nfb tk payload
        (ceilDiv payload.length 60) 1 0).length = ceilDiv payload.length 60
    ∧ (i < ceilDiv payload.length 60 →
        (vdmLoop (ceilDiv payload.length 60) sid chv nfb tk payload
          (ceilDiv payload.length 60) 1 0)[i]?
          = some (VDMSentence.mk (ceilDiv payload.length 60) (1 + i) sid chv
              (pySlice payload (i * 60) 60) nfb tk))
    ∧ (j + 1 < ceilDiv payload.length 60 →
        (vdmLoop (ceilDiv payload.length 60) sid chv nfb tk payload
          (ceilDiv payload.length 60) 1 0)[j]?.map (fun s => s.payload.length)
          = some 60)
    ∧ ((vdmLoop (ceilDiv payload.length 60) sid chv nfb tk payload
        (ceilDiv payload.length 60) 1 0).map
          (fun s => s.payload.data)).flatten = payload.data := by
  refine ⟨bbmLoop_length _ _ _ _ _ _ _ _ _ _, ?_, ?_, ?_,
    vdmLoop_length _ _ _ _ _ _ _ _ _, ?_, ?_, ?_⟩
  · intro hiB
    rw [bbmLoop_get _ _ _ _ _ _ _ _ 1 0 i hiB, Nat.zero_add]
  · intro hjB
    have hlenB := mul_le_of_succ_lt_ceilDiv payload.length 57 j (by omega) hjB
    rw [bbmLoop_get _ _ _ _ _ _ _ _ 1 0 j (by omega)]
    simp [pySlice_length]
    omega
  · rw [show (fun (s : BBMSentence) => s.payload.data)
        = (String.data ∘ BBMSentence.payload) from rfl,
      ← List.map_map, bbmLoop_map_payload, sliceList_flatten, List.drop_zero]
    exact List.take_of_length_le (le_ceilDiv_mul payload.length 57 (by omega))
  · intro hiV
    rw [vdmLoop_get _ _ _ _ _ _ _ 1 0 i hiV, Nat.zero_add]
  · intro hjV
    have hlenV := mul_le_of_succ_lt_ceilDiv payload.length 60 j (by omega) hjV
    rw [vdmLoop_get _ _ _ _ _ _ _ 1 0 j (by omega)]
    simp [pySlice_length]
    omega
  · rw [show (fun (s : VDMSentence) => s.payload.data)
        = (String.data ∘ VDMSentence.payload) from rfl,
      ← List.map_map, vdmLoop_map_payload, sliceList_flatten, List.drop_zero]
    exact List.take_of_length_le (le_ceilDiv_mul payload.length 60 (by omega))

set_option maxRecDepth 8192 in
/-- C3 witness, on a 130-character payload (3 fragments for both types)
and on a 10-character single-fragment payload. -/
theorem fragmentation_correct_witness :
    (bbmLoop (ceilDiv (String.mk (List.replicate 130 'a')).length 57) 0 1 8 0 "AI"
        (String.mk (List.replicate 130 'a'))
        (ceilDiv (String.mk (List.replicate 130 'a')).length 57) 1 0).length
      = ceilDiv (String.mk (List.replicate 130 'a')).length 57
    ∧ (bbmLoop (ceilDiv (String.mk (List.replicate 130 'a')).length 57) 0 1 8 0 "AI"
        (String.mk (List.replicate 130 'a'))
        (ceilDiv (String.mk (List.replicate 130 'a')).length 57) 1 0)[2]?
        = some (BBMSentence.mk (ceilDiv (String.mk (List.replicate 130 'a')).length 57)
            (1 + 2) 0 1 8 (pySlice (String.mk (List.replicate 130 'a')) (2 * 57) 57) 0 "AI")
    ∧ (bbmLoop (ceilDiv (String.mk (List.replicate 130 'a')).length 57) 0 1 8 0 "AI"
        (String.mk (List.replicate 130 'a'))
        (ceilDiv (String.mk (List.replicate 130 'a')).length 57) 1 0)[1]?.map
          (fun s => s.payload.length) = some 57
    ∧ ((bbmLoop (ceilDiv (String.mk (List.replicate 130 'a')).length 57) 0 1 8 0 "AI"
        (String.mk (List.replicate 130 'a'))
        (ceilDiv (String.mk (List.replicate 130 'a')).length 57) 1 0).map
          (fun s => s.payload.data)).flatten = (String.mk (List.replicate 130 'a')).data
    ∧ (vdmLoop (ceilDiv (String.mk (List.replicate 130 'a')).length 60) 0 "A" 0 "AI"
        (String.mk (List.replicate 130 'a'))
        (ceilDiv (String.mk (List.replicate 130 'a')).length 60) 1 0).length
      = ceilDiv (String.mk (List.replicate 130 'a')).length 60
    ∧ (vdmLoop (ceilDiv (String.mk (List.replicate 130 'a')).length 60) 0 "A" 0 "AI"
        (String.mk (List.replicate 130 'a'))
        (ceilDiv (String.mk (List.replicate 130 'a')).length 60) 1 0)[2]?
        = some (VDMSentence.mk (ceilDiv (String.mk (List.replicate 130 'a')).length 60)
            (1 + 2) 0 "A" (pySlice (String.mk (List.replicate 130 'a')) (2 * 60) 60) 0 "AI")
    ∧ (vdmLoop (ceilDiv (String.mk (List.replicate 130 'a')).length 60) 0 "A" 0 "AI"
        (String.mk (List.replicate 130 'a'))
        (ceilDiv (String.mk (List.replicate 130 'a')).length 60) 1 0)[1]?.map
          (fun s => s.payload.length) = some 60
    ∧ ((vdmLoop (ceilDiv (String.mk (List.replicate 130 'a')).length 60) 0 "A" 0 "AI"
        (String.mk (List.replicate 130 'a'))
        (ceilDiv (String.mk (List.replicate 130 'a')).length 60) 1 0).map
          (fun s => s.payload.data)).flatten = (String.mk (List.replicate 130 'a')).data
    ∧ (bbmLoop (ceilDiv (String.mk (List.replicate 10 'b')).length 57) 0 1 8 0 "AI"
        (String.mk (List.replicate 10 'b'))
        (ceilDiv (String.mk (List.replicate 10 'b')).length 57) 1 0).length
      = ceilDiv (String.mk (List.replicate 10 'b')).length 57
    ∧ ((bbmLoop (ceilDiv (String.mk (List.replicate 10 'b')).length 57) 0 1 8 0 "AI"
        (String.mk (List.replicate 10 'b'))
        (ceilDiv (String.mk (List.replicate 10 'b')).length 57) 1 0).map
          (fun s => s.payload.data)).flatten = (String.mk (List.replicate 10 'b')).data := by
  have h := fragmentation_correct (String.mk (List.replicate 130 'a')) 0 1 8 0 "A" "AI" 2 1
  have h2 := fragmentation_correct (String.mk (List.replicate 10 'b')) 0 1 8 0 "A" "AI" 0 0
  exact ⟨h.1, h.2.1 (by decide), h.2.2.1 (by decide), h.2.2.2.1,
    h.2.2.2.2.1, h.2.2.2.2.2.1 (by decide), h.2.2.2.2.2.2.1 (by decide),
    h.2.2.2.2.2.2.2, h2.1, h2.2.2.2.1⟩

theorem bbmLoop_mem_fields (ns sid ch mid nf : Nat) (tk p : String) :
    ∀ (fuel i off : Nat) (s : BBMSentence),
      s ∈ bbmLoop ns sid ch mid nf tk p fuel i off →
      s.sequential_id = sid ∧ s.n_fill_bits = nf := by
  intro fuel
  induction fuel with
  | zero => intro i off s hs; simp [bbmLoop] at hs
  | succ n ih =>
    intro i off s hs
    simp only [bbmLoop, List.mem_cons] at hs
    rcases hs with hs | hs
    · subst hs; exact ⟨rfl, rfl⟩
    · exact ih _ _ s hs

theorem vdmLoop_mem_fields (ns sid : Nat) (chv : String) (nf : Nat)
    (tk p : String) :
    ∀ (fuel i off : Nat) (v : VDMSentence),
      v ∈ vdmLoop ns sid chv nf tk p fuel i off →
      v.sequential_id = sid ∧ v.n_fill_bits = nf := by
  intro fuel
  induction fuel with
  | zero => intro i off v hv; simp [vdmLoop] at hv
  | succ n ih =>
    intro i off v hv
    simp only [vdmLoop, List.mem_cons] at hv
    rcases hv with hv | hv
    · subst hv; exact ⟨rfl, rfl⟩
    · exact ih _ _ v hv

/-- C8: in both generator functions every sentence built for one payload
carries the same fill_bit_count, equal to (6 - n mod 6) mod 6 for the
payload bit length n — set on every fragment, not only the last. -/
theorem fill_bit_count_uniform (bs : List Bool) (sid ch mid : Nat)
    (chv tk : String) (s : BBMSentence) (v : VDMSentence)
    (hs : s ∈ asm_payload_bs_to_bbm_sentences bs sid ch mid tk)
    (hv : v ∈ ais_msg_bs_to_vdm_sentences bs sid chv tk) :
    s.n_fill_bits = n_fill_bits bs.length
    ∧ v.n_fill_bits = n_fill_bits bs.length := by
  constructor
  · exact (bbmLoop_mem_fields _ _ _ _ _ _ _ _ _ _ s
      (by simpa [asm_payload_bs_to_bbm_sentences] using hs)).2
  · exact (vdmLoop_mem_fields _ _ _ _ _ _ _ _ _ v
      (by simpa [ais_msg_bs_to_vdm_sentences] using hv)).2

/-- C8 witness: a 4-bit payload gets 2 fill bits in its only sentence. -/
theorem fill_bit_count_uniform_witness :
    (BBMSentence.mk 1 1 0 1 8 "d" 2 "AI").n_fill_bits
      = n_fill_bits ([true, false, true, true] : List Bool).length
    ∧ (VDMSentence.mk 1 1 0 "A" "d" 2 "AI").n_fill_bits
      = n_fill_bits ([true, false, true, true] : List Bool).length :=
  fill_bit_count_uniform [true, false, true, true] 0 1 8 "A" "AI"
    (BBMSentence.mk 1 1 0 1 8 "d" 2 "AI") (VDMSentence.mk 1 1 0 "A" "d" 2 "AI")
    (by decide) (by decide)

/-- C1: every sentence returned by generate_bbm carries the
bbm_sequential_id value from before the call; afterwards the counter is
(old + 1) mod 10 when more than one sentence was produced and unchanged
when exactly one was produced. -/
theorem generate_bbm_sequential_id (g : SentenceGenerator) (bs : List Bool)
    (channel msg_id : Nat) :
    (∀ grp ∈ (g.generate_bbm bs channel msg_id).1, ∀ s ∈ grp,
        s.sequential_id = g.bbm_sequential_id)
    ∧ (1 < ((g.generate_bbm bs channel msg_id).1.flatten).length →
        (g.generate_bbm bs channel msg_id).2.bbm_sequential_id
          = (g.bbm_sequential_id + 1) % 10)
    ∧ (((g.generate_bbm bs channel msg_id).1.flatten).length = 1 →
        (g.generate_bbm bs channel msg_id).2.bbm_sequential_id
          = g.bbm_sequential_id) := by
  have hmem : ∀ s ∈ asm_payload_bs_to_bbm_sentences bs g.bbm_sequential_id
      channel msg_id g.talker_id, s.sequential_id = g.bbm_sequential_id := by
    intro s hs
    exact (bbmLoop_mem_fields _ _ _ _ _ _ _ _ _ _ s
      (by simpa [asm_payload_bs_to_bbm_sentences] using hs)).1
  by_cases hlen : (asm_payload_bs_to_bbm_sentences bs g.bbm_sequential_id
      channel msg_id g.talker_id).length > 1
  · simp only [SentenceGenerator.generate_bbm, if_pos hlen]
    refine ⟨?_, fun _ => trivial, ?_⟩
    · intro grp hg s hsv
      simp only [List.mem_singleton] at hg
      subst hg
      exact hmem s hsv
    · intro h1
      simp only [List.flatten_cons, List.flatten_nil, List.append_nil] at h1
      omega
  · simp only [SentenceGenerator.generate_bbm, if_neg hlen]
    refine ⟨?_, ?_, fun _ => trivial⟩
    · intro grp hg s hsv
      simp only [List.mem_singleton] at hg
      subst hg
      exact hmem s hsv
    · intro h1
      simp only [List.flatten_cons, List.flatten_nil, List.append_nil] at h1
      omega

set_option maxRecDepth 32768 in
/-- C1 witness: a 348-bit payload yields 2 sentences and advances the
counter from 0 to 1; a 60-bit payload yields 1 sentence and the counter
stays at 9. -/
theorem generate_bbm_sequential_id_witness :
    ((SentenceGenerator.mk "AI" 0 0).generate_bbm (List.replicate 348 false)
        1 8).2.bbm_sequential_id = (0 + 1) % 10
    ∧ ((SentenceGenerator.mk "AI" 0 9).generate_bbm (List.replicate 60 false)
        1 8).2.bbm_sequential_id = 9 :=
  ⟨(generate_bbm_sequential_id (SentenceGenerator.mk "AI" 0 0)
      (List.replicate 348 false) 1 8).2.1 (by decide),
   (generate_bbm_sequential_id (SentenceGenerator.mk "AI" 0 9)
      (List.replicate 60 false) 1 8).2.2 (by decide)⟩

theorem emitGroup_length {α : Type} (gid : Nat) (sid : String) (ns : Nat) :
    ∀ (i : Nat) (g : List α), (emitGroup gid sid ns i g).length = g.length := by
  intro i g
  induction g generalizing i with
  | nil => rfl
  | cons a g ih => simp [emitGroup, ih]

theorem emitGroup_mem {α : Type} (gid : Nat) (sid : String) (ns : Nat) :
    ∀ (i : Nat) (g : List α) (m : IEC61162450Message α),
      m ∈ emitGroup gid sid ns i g → m.group_id = gid ∧ m.source_id = sid := by
  intro i g
  induction g generalizing i with
  | nil => intro m hm; simp [emitGroup] at hm
  | cons a g ih =>
    intro m hm
    simp only [emitGroup, List.mem_cons] at hm
    rcases hm with hm | hm
    · subst hm; exact ⟨rfl, rfl⟩
    · exact ih (i + 1) m hm

theorem nextGroupId_range (gid : Nat) :
    1 ≤ nextGroupId gid ∧ nextGroupId gid ≤ 99 := by
  unfold nextGroupId
  split <;> omega

theorem genLoop_gid {α : Type} (sid : String) :
    ∀ (gs : List (List α)) (gid : Nat),
      (genLoop sid gid gs).2 = nextGroupId^[gs.length] gid := by
  intro gs
  induction gs with
  | nil => intro gid; rfl
  | cons g gs ih =>
    intro gid
    simp only [genLoop]
    rw [ih (nextGroupId gid), List.length_cons, Function.iterate_succ_apply]

theorem genLoop_msgs_length {α : Type} (sid : String) :
    ∀ (gs : List (List α)) (gid : Nat),
      (genLoop sid gid gs).1.length = (gs.map List.length).sum := by
  intro gs
  induction gs with
  | nil => intro gid; rfl
  | cons g gs ih =>
    intro gid
    simp [genLoop, List.length_append, emitGroup_length, ih]

theorem genLoop_mem {α : Type} (sid : String) :
    ∀ (gs : List (List α)) (gid : Nat) (m : IEC61162450Message α),
      m ∈ (genLoop sid gid gs).1 →
      1 ≤ m.group_id ∧ m.group_id ≤ 99 ∧ m.source_id = sid := by
  intro gs
  induction gs with
  | nil => intro gid m hm; simp [genLoop] at hm
  | cons g gs ih =>
    intro gid m hm
    simp only [genLoop, List.mem_append] at hm
    rcases hm with hm | hm
    · obtain ⟨h1, h2⟩ := emitGroup_mem (nextGroupId gid) sid g.length 1 g m hm
      have hr := nextGroupId_range gid
      exact ⟨by omega, by omega, h2⟩
    · exact ih (nextGroupId gid) m hm

theorem genLoop_blocks {α : Type} (sid : String) :
    ∀ (gs : List (List α)) (gid : Nat),
      (genLoop sid gid gs).1 = (genBlocks sid gid gs).flatten := by
  intro gs
  induction gs with
  | nil => intro gid; rfl
  | cons g gs ih => intro gid; simp [genLoop, genBlocks, ih]

theorem genBlocks_length {α : Type} (sid : String) :
    ∀ (gs : List (List α)) (gid : Nat),
      (genBlocks sid gid gs).length = gs.length := by
  intro gs
  induction gs with
  | nil => intro gid; rfl
  | cons g gs ih => intro gid; simp [genBlocks, ih]

theorem genBlocks_spec {α : Type} (sid : String) :
    ∀ (gs : List (List α)) (gid k : Nat)
      (hk : k < (genBlocks sid gid gs).length) (hk2 : k < gs.length),
      ((genBlocks sid gid gs).get ⟨k, hk⟩).length = (gs.get ⟨k, hk2⟩).length
      ∧ ∃ i2, 1 ≤ i2 ∧ i2 ≤ 99 ∧
          ∀ m ∈ (genBlocks sid gid gs).get ⟨k, hk⟩, m.group_id = i2 := by
  intro gs
  induction gs with
  | nil => intro gid k hk hk2; exact absurd hk2 (by simp)
  | cons g gs ih =>
    intro gid k hk hk2
    cases k with
    | zero =>
      constructor
      · exact emitGroup_length (nextGroupId gid) sid g.length 1 g
      · refine ⟨nextGroupId gid, (nextGroupId_range gid).1,
          (nextGroupId_range gid).2, ?_⟩
        intro m hm
        exact (emitGroup_mem (nextGroupId gid) sid g.length 1 g m hm).1
    | succ k =>
      have h := ih (nextGroupId gid) k (by simpa [genBlocks] using hk)
        (by simpa using hk2)
      simpa [genBlocks] using h

theorem runCalls_mem {α : Type} :
    ∀ (inputs : List (List (List α))) (mg : MessageGenerator)
      (out : List (IEC61162450Message α)) (m : IEC61162450Message α),
      out ∈ (runCalls mg inputs).1 → m ∈ out →
      1 ≤ m.group_id ∧ m.group_id ≤ 99 ∧ m.source_id = mg.source_id := by
  intro inputs
  induction inputs with
  | nil => intro mg out m ho hm; simp [runCalls] at ho
  | cons inp rest ih =>
    intro mg out m ho hm
    simp only [runCalls, List.mem_cons] at ho
    rcases ho with ho | ho
    · subst ho
      exact genLoop_mem mg.source_id inp mg.group_id m hm
    · exact ih ((mg.generate_msg inp).2) out m ho hm

theorem runCalls_gid {α : Type} :
    ∀ (inputs : List (List (List α))) (mg : MessageGenerator),
      (runCalls mg inputs).2.group_id
        = nextGroupId^[(inputs.map List.length).sum] mg.group_id := by
  intro inputs
  induction inputs with
  | nil => intro mg; rfl
  | cons inp rest ih =>
    intro mg
    have h := ih ((mg.generate_msg inp).2)
    have h2 : ((mg.generate_msg inp).2).group_id
        = nextGroupId^[inp.length] mg.group_id :=
      genLoop_gid mg.source_id inp mg.group_id
    show (runCalls ((mg.generate_msg inp).2) rest).2.group_id = _
    rw [h, h2, ← Function.iterate_add_apply, List.map_cons, List.sum_cons,
      Nat.add_comm]

/-- C10: generate_msg advances the group id once for every group,
including empty ones, while an empty group contributes no message (the
message count is the sum of the group sizes); and generate_bbm on a
zero-length bitstream returns exactly one empty group and leaves the
generator unchanged. -/
theorem empty_group_consumes_group_id (α : Type) (mg : MessageGenerator)
    (sentences : List (List α)) (g0 : List α)
    (_hmem : g0 ∈ sentences) (_hempty : g0 = [])
    (sg : SentenceGenerator) (ch mid : Nat) :
    (mg.generate_msg sentences).1.length = (sentences.map List.length).sum
    ∧ (mg.generate_msg sentences).2.group_id
        = nextGroupId^[sentences.length] mg.group_id
    ∧ sg.generate_bbm [] ch mid = ([[]], sg) := by
  refine ⟨?_, ?_, ?_⟩
  · exact genLoop_msgs_length mg.source_id sentences mg.group_id
  · exact genLoop_gid mg.source_id sentences mg.group_id
  · rfl

/-- C10 witness: a call containing an empty group beside a singleton
group emits one message but steps the counter twice. -/
theorem empty_group_consumes_group_id_witness :
    ((MessageGenerator.mk "S" 0).generate_msg
        ([[], [7]] : List (List Nat))).1.length
      = (([[], [7]] : List (List Nat)).map List.length).sum
    ∧ ((MessageGenerator.mk "S" 0).generate_msg
        ([[], [7]] : List (List Nat))).2.group_id
      = nextGroupId^[([[], [7]] : List (List Nat)).length] 0
    ∧ (SentenceGenerator.mk "AI" 0 0).generate_bbm [] 1 8
      = ([[]], SentenceGenerator.mk "AI" 0 0) :=
  empty_group_consumes_group_id Nat (MessageGenerator.mk "S" 0) [[], [7]] []
    (by decide) rfl (SentenceGenerator.mk "AI" 0 0) 1 8

/-- C2: starting from a fresh generator, every message emitted by any
sequence of generate_msg calls carries a group id in 1..99 (never 0) and
the generator's fixed source id; the counter is stepped exactly once per
group; the very first group processed gets group id 1; and each call's
output decomposes into per-group blocks, one block per group, each block
as long as its group with all its messages sharing one group id in
1..99. -/
theorem group_id_discipline (α : Type) (sid : String)
    (inputs : List (List (List α))) :
    (∀ out ∈ (runCalls (MessageGenerator.mk sid 0) inputs).1, ∀ m ∈ out,
        1 ≤ m.group_id ∧ m.group_id ≤ 99 ∧ m.source_id = sid)
    ∧ (runCalls (MessageGenerator.mk sid 0) inputs).2.group_id
        = nextGroupId^[(inputs.map List.length).sum] 0
    ∧ (∀ (g : List α) (gs : List (List α)) (rest : List (List (List α))),
        inputs = (g :: gs) :: rest →
        ((runCalls (MessageGenerator.mk sid 0) inputs).1.headD []).take g.length
          = emitGroup 1 sid g.length 1 g)
    ∧ (∀ (gid : Nat) (groups : List (List α)),
        ((MessageGenerator.mk sid gid).generate_msg groups).1
          = (genBlocks sid gid groups).flatten
        ∧ (genBlocks sid gid groups).length = groups.length
        ∧ ∀ (k : Nat) (hk : k < (genBlocks sid gid groups).length)
            (hk2 : k < groups.length),
            ((genBlocks sid gid groups).get ⟨k, hk⟩).length
              = (groups.get ⟨k, hk2⟩).length
            ∧ ∃ i2, 1 ≤ i2 ∧ i2 ≤ 99 ∧
                ∀ m ∈ (genBlocks sid gid groups).get ⟨k, hk⟩,
                  m.group_id = i2) := by
  refine ⟨?_, runCalls_gid inputs (MessageGenerator.mk sid 0), ?_, ?_⟩
  · intro out ho m hm
    exact runCalls_mem inputs (MessageGenerator.mk sid 0) out m ho hm
  · intro g gs rest h
    subst h
    show ((emitGroup (nextGroupId 0) sid g.length 1 g
        ++ (genLoop sid (nextGroupId 0) gs).1)).take g.length
      = emitGroup 1 sid g.length 1 g
    exact List.take_left' (emitGroup_length 1 sid g.length 1 g)
  · intro gid groups
    exact ⟨genLoop_blocks sid groups gid, genBlocks_length sid groups gid,
      fun k hk hk2 => genBlocks_spec sid groups gid k hk hk2⟩

/-- C2 witness: one call with a singleton group and a pair group; the
first group's block is the id-1 block, the final counter is two steps
from 0, and the second message of the pair group is in range with the
generator's source id. -/
theorem group_id_discipline_witness :
    ((runCalls (MessageGenerator.mk "GR0001" 0)
        ([[[5], [6, 7]]] : List (List (List Nat)))).1.headD []).take 1
      = emitGroup 1 "GR0001" 1 1 [5]
    ∧ (runCalls (MessageGenerator.mk "GR0001" 0)
        ([[[5], [6, 7]]] : List (List (List Nat)))).2.group_id
      = nextGroupId^[2] 0
    ∧ (1 ≤ (IEC61162450Message.mk 1 2 2 "GR0001" (6 : Nat)).group_id
        ∧ (IEC61162450Message.mk 1 2 2 "GR0001" (6 : Nat)).group_id ≤ 99
        ∧ (IEC61162450Message.mk 1 2 2 "GR0001" (6 : Nat)).source_id
            = "GR0001") := by
  have h := group_id_discipline Nat "GR0001" [[[5], [6, 7]]]
  exact ⟨h.2.2.1 [5] [[6, 7]] [] rfl, h.2.1,
    h.1 ((runCalls (MessageGenerator.mk "GR0001" 0)
        ([[[5], [6, 7]]] : List (List (List Nat)))).1.headD [])
      (by decide) (IEC61162450Message.mk 1 2 2 "GR0001" (6 : Nat)) (by decide)⟩

theorem checksumCore_cons (c : Char) (l : List Char) :
    checksumCore (c :: l) = c.toNat ^^^ checksumCore l := by
  unfold checksumCore
  simp only [List.foldl_cons]
  rw [checksum_foldl_eq, Nat.zero_xor]
  rfl

theorem checksumCore_lt_256 (l : List Char) (h : ∀ c ∈ l, c.toNat < 256) :
    checksumCore l < 256 := by
  induction l with
  | nil => simp [checksumCore]
  | cons c l ih =>
    have h256 : (2 : Nat) ^ 8 = 256 := by norm_num
    rw [checksumCore_cons]
    have h1 : c.toNat < 2 ^ 8 := by
      rw [h256]; exact h c (List.mem_cons_self c l)
    have h2 : checksumCore l < 2 ^ 8 := by
      rw [h256]; exact ih (fun x hx => h x (List.mem_cons_of_mem c hx))
    have h3 := Nat.xor_lt_two_pow h1 h2
    rw [h256] at h3
    exact h3

theorem hexDigit_range : ∀ d : Nat, d < 16 →
    (48 ≤ (hexDigit d).toNat ∧ (hexDigit d).toNat ≤ 57)
    ∨ (65 ≤ (hexDigit d).toNat ∧ (hexDigit d).toNat ≤ 70) := by
  decide

theorem fmtHex2_eq_two_digits (n : Nat) (h : n < 256) :
    fmtHex2 n = String.mk [hexDigit (n / 16), hexDigit (n % 16)] := by
  by_cases h16 : n < 16
  · have hd : hexDigits n = [hexDigit n] := by
      unfold hexDigits
      simp only [hexDigitsAux]
      rw [if_pos h16]
    have h0 : n / 16 = 0 := Nat.div_eq_of_lt h16
    have h1 : n % 16 = n := Nat.mod_eq_of_lt h16
    unfold fmtHex2
    rw [hd, h0, h1, show hexDigit 0 = '0' from by decide]
    rfl
  · have hq : n / 16 < 16 := by omega
    have hd : hexDigits n = [hexDigit (n / 16), hexDigit (n % 16)] := by
      obtain ⟨m, hm⟩ : ∃ m, n = m + 1 := ⟨n - 1, by omega⟩
      subst hm
      unfold hexDigits
      simp only [hexDigitsAux]
      rw [if_neg h16, if_pos hq]
      rfl
    unfold fmtHex2
    rw [hd]
    rfl

theorem bbmBody_data (x : BBMSentence) :
    (bbmBody x).data = '!' :: (bbmFields x).data := by
  unfold bbmBody
  rw [String.data_append]
  rfl

theorem iec_checksum_bbmBody (x : BBMSentence) :
    iec_checksum (bbmBody x) = some (checksumCore (bbmFields x).data) := by
  rw [iec_checksum_cons '!' (bbmFields x).data (bbmBody x) (bbmBody_data x),
    if_pos (Or.inr rfl)]

/-- C5 (amended): for every BBM sentence whose body characters all have
code points below 256 (in particular every ASCII-armored sentence), the
rendered string is exactly body ++ asterisk ++ HH ++ CRLF, where body is
the sentinel, talker id, formatter code and the seven comma-separated
fields, and HH is the two-character uppercase-hexadecimal checksum of
everything between the leading sentinel (excluded) and the asterisk. -/
theorem bbm_string_grammar (x : BBMSentence)
    (h : ∀ c ∈ (bbmBody x).data, c.toNat < 256) :
    ∃ hh : String,
      x.string = bbmBody x ++ "*" ++ hh ++ "\r\n"
      ∧ hh.length = 2
      ∧ (∀ c ∈ hh.data, (48 ≤ c.toNat ∧ c.toNat ≤ 57)
          ∨ (65 ≤ c.toNat ∧ c.toNat ≤ 70))
      ∧ hh = fmtHex2 (checksumCore (bbmFields x).data)
      ∧ iec_checksum (bbmBody x) = some (checksumCore (bbmFields x).data) := by
  have hcs : checksumCore (bbmFields x).data < 256 := by
    apply checksumCore_lt_256
    intro c hc
    exact h c (by rw [bbmBody_data]; exact List.mem_cons_of_mem _ hc)
  refine ⟨fmtHex2 (checksumCore (bbmFields x).data), ?_, ?_, ?_, rfl,
    iec_checksum_bbmBody x⟩
  · unfold BBMSentence.string
    rw [iec_checksum_bbmBody x]
    rfl
  · rw [fmtHex2_eq_two_digits _ hcs]
    rfl
  · generalize hg : checksumCore (bbmFields x).data = cs at hcs ⊢
    rw [fmtHex2_eq_two_digits cs hcs]
    intro c hc
    simp only [data_mk, List.mem_cons, List.not_mem_nil, or_false] at hc
    rcases hc with hc | hc
    · subst hc
      exact hexDigit_range (cs / 16) (by omega)
    · subst hc
      exact hexDigit_range (cs % 16) (Nat.mod_lt _ (by omega))

set_option maxHeartbeats 2000000 in
set_option maxRecDepth 8192 in
/-- C5 counterexample: with a payload character of code point 256 the
checksum exceeds 255 and the format emits three hexadecimal digits, so
the rendered string does not match the two-hex-digit grammar (the whole
string is 26 characters where the grammar requires 25). -/
theorem bbm_string_two_hex_cex :
    ¬ ∃ hh : String, hh.length = 2
      ∧ (BBMSentence.mk 1 1 0 1 8 (String.mk [Char.ofNat 256]) 0 "AI").string
        = bbmBody (BBMSentence.mk 1 1 0 1 8 (String.mk [Char.ofNat 256]) 0 "AI")
          ++ "*" ++ hh ++ "\r\n" := by
  rintro ⟨hh, h2, he⟩
  have hl := congrArg String.length he
  rw [String.length_append, String.length_append, String.length_append,
    h2, show ("*" : String).length = 1 from rfl,
    show ("\r\n" : String).length = 2 from rfl,
    show (BBMSentence.mk 1 1 0 1 8 (String.mk [Char.ofNat 256]) 0 "AI").string.length
      = 26 from by decide,
    show (bbmBody (BBMSentence.mk 1 1 0 1 8 (String.mk [Char.ofNat 256]) 0 "AI")).length
      = 20 from by decide] at hl
  omega

/-- C5 witness. -/
theorem bbm_string_grammar_witness :
    ∃ hh : String,
      (BBMSentence.mk 1 1 0 1 8 "P" 0 "AI").string
        = bbmBody (BBMSentence.mk 1 1 0 1 8 "P" 0 "AI") ++ "*" ++ hh ++ "\r\n"
      ∧ hh.length = 2
      ∧ (∀ c ∈ hh.data, (48 ≤ c.toNat ∧ c.toNat ≤ 57)
          ∨ (65 ≤ c.toNat ∧ c.toNat ≤ 70))
      ∧ hh = fmtHex2 (checksumCore (bbmFields (BBMSentence.mk 1 1 0 1 8 "P" 0 "AI")).data)
      ∧ iec_checksum (bbmBody (BBMSentence.mk 1 1 0 1 8 "P" 0 "AI"))
        = some (checksumCore (bbmFields (BBMSentence.mk 1 1 0 1 8 "P" 0 "AI")).data) :=
  bbm_string_grammar (BBMSentence.mk 1 1 0 1 8 "P" 0 "AI") (by decide)

set_option maxRecDepth 100000 in
set_option maxHeartbeats 2000000 in
/-- C7 counterexample: the sample pattern "0x123456789ABCDEF" holds 15
hex digits (60 bits), so 15 repetitions give 900 bits, not 960; armoring
gives a 150-character string (not 160) and fragmenting at 57 gives a
last fragment of 36 characters (not 46). -/
theorem sample_fragmentation_cex :
    (iec_ascii_6b_to_8b (sample_asm_payload_bs
        ++ List.replicate (n_fill_bits sample_asm_payload_bs.length) false)).length ≠ 160
    ∧ ((asm_payload_bs_to_bbm_sentences sample_asm_payload_bs 0 1 8 "AI").map
        (fun s => s.payload.length)) ≠ [57, 57, 46] := by
  constructor <;> decide

set_option maxRecDepth 100000 in
set_option maxHeartbeats 2000000 in
/-- C7 (amended): the sample ASM payload bitstream has 900 bits;
armoring it yields 0 fill bits and a 150-character armored string, and
fragmenting that string at max_chars 57 yields exactly 3 fragments of
lengths 57, 57 and 36. -/
theorem sample_fragmentation :
    sample_asm_payload_bs.length = 900
    ∧ n_fill_bits sample_asm_payload_bs.length = 0
    ∧ (iec_ascii_6b_to_8b (sample_asm_payload_bs
        ++ List.replicate (n_fill_bits sample_asm_payload_bs.length) false)).length = 150
    ∧ ((asm_payload_bs_to_bbm_sentences sample_asm_payload_bs 0 1 8 "AI").map
        (fun s => s.payload.length)) = [57, 57, 36] := by
  refine ⟨by decide, by decide, by decide, by decide⟩
